import Mathlib

/-!
Verification of the metadata-reflection core of the `ravel` framework
(src/lib/core/reflect.js and the `before` registration function).

The registry state is embedded by explicit state passing: a JS plain
object used as a string-keyed map becomes an association list with JS
object semantics (assignment to an existing key replaces its value in
place, a new key is appended; `Object.keys` returns keys in that order).
Errors thrown with `throw` become `Except.error`.
-/

namespace Ravel

/-- Lookup in a JS object used as a map: the value at the first matching
key, `none` when the key is absent. -/
def jsGet [DecidableEq K] : List (K × V) → K → Option V
  | [], _ => none
  | e :: rest, k => if e.1 = k then some e.2 else jsGet rest k

/-- Assignment `obj[k] = v` on a JS object used as a map: replaces the
value in place when `k` is present, appends `(k, v)` otherwise. -/
def jsSet [DecidableEq K] : List (K × V) → K → V → List (K × V)
  | [], k, v => [(k, v)]
  | e :: rest, k, v => if e.1 = k then (e.1, v) :: rest else e :: jsSet rest k v

/-- `Object.keys`. -/
def jsKeys (m : List (K × V)) : List K := m.map (·.1)

/-- A JS runtime value, as far as the `before` registration function
inspects one: `typeof r !== 'string'` distinguishes strings from
everything else. -/
inductive JSVal where
  | str (s : String)
  | num (n : Int)
  | boolean (b : Bool)
  | undefined
  deriving DecidableEq, Repr

/-- The `typeof r === 'string'` test. -/
def JSVal.isString : JSVal → Bool
  | .str _ => true
  | _ => false

/-- A JS object playing the role of a decorator target: a class
constructor function, the prototype object of a class, or `undefined`.
Class identity is a `Nat` tag. -/
inductive JSObj where
  | cls (id : Nat)
  | proto (id : Nat)
  | undefined
  deriving DecidableEq, Repr

/-- The `.prototype` property: a class constructor has its prototype
object; other values have no `prototype` property (read as undefined). -/
def JSObj.prototype : JSObj → JSObj
  | .cls c => .proto c
  | _ => .undefined

/-- The `typeof target` expression used in the empty-`@before` message. -/
def JSObj.typeofStr : JSObj → String
  | .cls _ => "function"
  | .proto _ => "object"
  | .undefined => "undefined"

/-- The error taxonomy of `ApplicationError` used by reflect.js and
`before`: `NotFound` and `IllegalValue`, each carrying a message. -/
inductive ApplicationError where
  | NotFound (message : String)
  | IllegalValue (message : String)
  deriving DecidableEq, Repr

/-- The `Meta` container class of reflect.js: `path`, the target class
(`class` in the source, a reserved word in Lean, hence `klass` as in the
constructor parameter), and the private `registeredAt` timestamp captured
at construction from `Date.now()`; the constructor takes the current
time explicitly here. -/
structure Meta where
  path : String
  klass : JSObj
  registeredAt : Nat
  deriving DecidableEq, Repr

/-- The per-instance registry state of a Ravel app:
`this[symbols.knownClasses]`, a plain object mapping path strings to
`Meta` records. -/
structure RavelState where
  knownClasses : List (String × Meta)
  deriving DecidableEq, Repr

/-- A fresh Ravel instance with an empty registry. -/
def RavelState.init : RavelState := ⟨[]⟩

/-- `Ravel.prototype[symbols.registerClassFunc]`:
`this[symbols.knownClasses][path] = new Meta(path, klass)`. The current
`Date.now()` value is passed in as `now`. -/
def registerClassFunc (st : RavelState) (now : Nat) (path : String) (klass : JSObj) :
    RavelState :=
  { st with knownClasses := jsSet st.knownClasses path ⟨path, klass, now⟩ }

/-- `Ravel.prototype.reflect`: throws `NotFound` when the path is absent
(a `Meta` object is always truthy, so the falsiness test in the source is
a presence test), otherwise returns the stored record. Returns the
unchanged state as the second component to make the absence of mutation
explicit. -/
def reflect (st : RavelState) (filePath : String) :
    Except ApplicationError Meta × RavelState :=
  match jsGet st.knownClasses filePath with
  | none =>
      (.error (.NotFound ("Class at " ++ filePath ++ " is not registered with Ravel.")), st)
  | some m => (.ok m, st)

/-- `Ravel.prototype.knownClasses`:
`Object.keys(this[symbols.knownClasses])`, with the unchanged state. -/
def knownClassesFunc (st : RavelState) : List String × RavelState :=
  (jsKeys st.knownClasses, st)

/-- A finite trace of registrations `(now, path, klass)` run in order on
a starting state. -/
def runRegs : RavelState → List (Nat × String × JSObj) → RavelState
  | st, [] => st
  | st, (t, p, k) :: evs => runRegs (registerClassFunc st t p k) evs

/-- A namespace map: namespace string to attachment key to value. The
values written by `before` are argument lists, so values are `List JSVal`. -/
abbrev NsMap := List (String × List (String × List JSVal))

instance : DecidableEq NsMap := inferInstance

/-- Modelled from the spec: the Metadata Store of `src/lib/util/meta.js`,
which is not under src/. Per the spec it keys class-level metadata by
class identity and method-level metadata by class identity and method
name, each mapping namespace to attachment key to value. -/
structure MetaStore where
  classMeta : List (JSObj × NsMap)
  methodMeta : List (JSObj × List (String × NsMap))
  deriving DecidableEq, Repr

/-- The empty Metadata Store. -/
def MetaStore.empty : MetaStore := ⟨[], []⟩

/-- Modelled from the spec: `Metadata.putClassMeta(classIdentity,
namespace, key, value)` of the missing `src/lib/util/meta.js`: an
idempotent write that creates intermediate mappings as needed and has no
error conditions. -/
def putClassMeta (store : MetaStore) (classIdentity : JSObj) (ns key : String)
    (value : List JSVal) : MetaStore :=
  let cur := (jsGet store.classMeta classIdentity).getD []
  let nsMap := (jsGet cur ns).getD []
  { store with
    classMeta := jsSet store.classMeta classIdentity (jsSet cur ns (jsSet nsMap key value)) }

/-- Modelled from the spec: `Metadata.putMethodMeta(classIdentity,
methodName, namespace, key, value)` of the missing `src/lib/util/meta.js`:
the same idempotent write, scoped to one method. -/
def putMethodMeta (store : MetaStore) (classIdentity : JSObj) (methodName ns key : String)
    (value : List JSVal) : MetaStore :=
  let cur := (jsGet store.methodMeta classIdentity).getD []
  let nsMap := (jsGet ((jsGet cur methodName).getD []) ns).getD []
  { store with
    methodMeta := jsSet store.methodMeta classIdentity
      (jsSet cur methodName
        (jsSet ((jsGet cur methodName).getD []) ns (jsSet nsMap key value))) }

/-- Modelled from the spec: the read view returned by
`Metadata.getMeta(classIdentity)`; the spec requires that class-level and
method-level metadata be readable in isolation or merged. -/
structure MetaView where
  classView : NsMap
  methodView : List (String × NsMap)
  deriving DecidableEq, Repr

/-- Modelled from the spec: `Metadata.getMeta(classIdentity)` of the
missing `src/lib/util/meta.js`: for a class with no metadata ever
attached it returns an empty structure and never fails. -/
def getMeta (store : MetaStore) (classIdentity : JSObj) : MetaView :=
  ⟨(jsGet store.classMeta classIdentity).getD [],
   (jsGet store.methodMeta classIdentity).getD []⟩

/-- Point lookup of a class-level metadata value. -/
def classMetaLookup (store : MetaStore) (c : JSObj) (ns key : String) :
    Option (List JSVal) :=
  (jsGet store.classMeta c).bind fun nsm => (jsGet nsm ns).bind fun km => jsGet km key

/-- Point lookup of a method-level metadata value. -/
def methodMetaLookup (store : MetaStore) (c : JSObj) (m ns key : String) :
    Option (List JSVal) :=
  (jsGet store.methodMeta c).bind fun mm => (jsGet mm m).bind fun nsm =>
    (jsGet nsm ns).bind fun km => jsGet km key

/-- The class-level middleware list of a metadata view under the
`@before` namespace, defaulting to the empty list. -/
def classMiddleware (v : MetaView) : List JSVal :=
  ((jsGet v.classView "@before").bind fun km => jsGet km "middleware").getD []

/-- The method-level middleware list of a metadata view for one method
under the `@before` namespace, defaulting to the empty list. -/
def methodMiddleware (v : MetaView) (m : String) : List JSVal :=
  ((jsGet v.methodView m).bind fun nsm =>
    (jsGet nsm "@before").bind fun km => jsGet km "middleware").getD []

/-- Modelled from the spec: the effective middleware list consumed for a
method, assembled by the consuming route binder, which is not under
src/. Per the spec both levels are additive and class-level middleware
runs before method-level middleware. -/
def effectiveMiddleware (v : MetaView) (m : String) : List JSVal :=
  classMiddleware v ++ methodMiddleware v m

/-- The string a JS template literal renders for the method key: the key
itself, or the text undefined for a class-level application. -/
def keyStr : Option String → String
  | none => "undefined"
  | some k => k

/-- The application phase of `before`: the function returned by the
decorator factory. With an empty argument list it throws `NotFound`
naming the method key; at class granularity (key undefined) it writes the
argument list as class-level metadata of `target.prototype` under
namespace `@before` and key `middleware`; at method granularity it writes
the same list as method-level metadata of `target`. -/
def beforeApply (rest : List JSVal) (target : JSObj) (key : Option String)
    (store : MetaStore) : Except ApplicationError MetaStore :=
  if rest.length = 0 then
    .error (.NotFound
      ("Empty @before supplied on method " ++ keyStr key ++ " of Resource " ++
        target.typeofStr))
  else
    match key with
    | none => .ok (putClassMeta store target.prototype "@before" "middleware" rest)
    | some k => .ok (putMethodMeta store target k "@before" "middleware" rest)

/-- The `before` decorator factory: the validation phase throws
`IllegalValue` as soon as some argument is not a string (the loop in the
source throws on the first offender, with one fixed message, which is
equivalent to this all-elements test), and otherwise returns the
application-phase function. -/
def before (rest : List JSVal) :
    Except ApplicationError (JSObj → Option String → MetaStore → Except ApplicationError MetaStore) :=
  if rest.all (·.isString) then .ok (beforeApply rest)
  else .error (.IllegalValue "Values supplied to @before decorator must be strings.")

/-- The `metadata` getter of the `Meta` class:
`Metadata.getMeta(this.class.prototype)`, computed on demand from the
current store. -/
def Meta.metadata (m : Meta) (store : MetaStore) : MetaView :=
  getMeta store m.klass.prototype

/-- A two-instance world: two independent Ravel apps in one process,
each owning its own `this[symbols.knownClasses]` object. -/
structure World where
  app1 : RavelState
  app2 : RavelState

/-- Registering a class on the first instance only: the source mutates
only the `this` the method is invoked on. -/
def registerOnApp1 (w : World) (now : Nat) (path : String) (klass : JSObj) : World :=
  { w with app1 := registerClassFunc w.app1 now path klass }

/-- The end-to-end run of the spec: an empty store, `before` applied with
auth and log at class level to class 0 and with cache to method get of
the prototype of class 0, class 0 registered at /foo.js at time 100, and
the metadata view read through `reflect` and the `Meta.metadata` getter,
which calls `getMeta(this.class.prototype)`. -/
def fooEndToEnd : Except ApplicationError MetaView := do
  let s1 ← beforeApply [.str "auth", .str "log"] (.cls 0) none .empty
  let s2 ← beforeApply [.str "cache"] (.proto 0) (some "get") s1
  let st := registerClassFunc .init 100 "/foo.js" (.cls 0)
  let r ← (reflect st "/foo.js").1
  pure (r.metadata s2)

/- ### Association-list lemmas -/

theorem jsGet_jsSet_self [DecidableEq K] (m : List (K × V)) (k : K) (v : V) :
    jsGet (jsSet m k v) k = some v := by
  induction m with
  | nil => simp [jsSet, jsGet]
  | cons e rest ih =>
      by_cases h : e.1 = k <;> simp [jsSet, jsGet, h, ih]

theorem jsGet_jsSet_ne [DecidableEq K] (m : List (K × V)) (k k' : K) (v : V)
    (h : k' ≠ k) : jsGet (jsSet m k v) k' = jsGet m k' := by
  induction m with
  | nil => simp [jsSet, jsGet, Ne.symm h]
  | cons e rest ih =>
      by_cases h1 : e.1 = k
      · have h2 : ¬ e.1 = k' := by rw [h1]; exact Ne.symm h
        simp [jsSet, jsGet, h1, h2, Ne.symm h]
      · simp [jsSet, jsGet, h1, ih]

theorem mem_jsKeys_jsSet [DecidableEq K] (m : List (K × V)) (k p : K) (v : V) :
    p ∈ jsKeys (jsSet m k v) ↔ p = k ∨ p ∈ jsKeys m := by
  induction m with
  | nil => simp [jsSet, jsKeys]
  | cons e rest ih =>
      simp only [jsKeys, List.map_cons, List.mem_cons] at ih ⊢
      by_cases h : e.1 = k
      · subst h
        rw [show jsSet (e :: rest) e.1 v = (e.1, v) :: rest from by simp [jsSet]]
        simp only [List.map_cons, List.mem_cons]
        tauto
      · simp only [jsSet, if_neg h, List.map_cons, List.mem_cons]
        rw [ih]
        tauto

theorem jsGet_isSome_iff_mem [DecidableEq K] (m : List (K × V)) (k : K) :
    (jsGet m k).isSome = true ↔ k ∈ jsKeys m := by
  induction m with
  | nil => simp [jsGet, jsKeys]
  | cons e rest ih =>
      simp only [jsKeys, List.map_cons, List.mem_cons] at ih ⊢
      by_cases h : e.1 = k
      · subst h
        simp [jsGet]
      · simp [jsGet, h, ih, Ne.symm h]

theorem jsGet_runRegs_mem (evs : List (Nat × String × JSObj)) (st : RavelState)
    (p : String) :
    ((jsGet (runRegs st evs).knownClasses p).isSome = true ↔
      p ∈ jsKeys st.knownClasses ∨ p ∈ evs.map (·.2.1)) := by
  induction evs generalizing st with
  | nil => simp [runRegs, jsGet_isSome_iff_mem]
  | cons e evs ih =>
      obtain ⟨t, q, k⟩ := e
      simp only [runRegs, List.map_cons, List.mem_cons]
      rw [ih]
      simp only [registerClassFunc, mem_jsKeys_jsSet]
      tauto

theorem jsGet_eq_none_iff [DecidableEq K] (m : List (K × V)) (k : K) :
    jsGet m k = none ↔ k ∉ jsKeys m := by
  rw [← jsGet_isSome_iff_mem]
  cases jsGet m k <;> simp

theorem reflect_register_self (st : RavelState) (now : Nat) (p : String) (k : JSObj) :
    (reflect (registerClassFunc st now p k) p).1 = .ok ⟨p, k, now⟩ := by
  simp [reflect, registerClassFunc, jsGet_jsSet_self]

theorem reflect_not_mem (st : RavelState) (p : String)
    (h : p ∉ jsKeys st.knownClasses) :
    (reflect st p).1 =
      .error (.NotFound ("Class at " ++ p ++ " is not registered with Ravel.")) := by
  have hg : jsGet st.knownClasses p = none := (jsGet_eq_none_iff _ _).mpr h
  simp [reflect, hg]

/- ### Metadata Store write-read lemmas -/

theorem classMetaLookup_put_self (store : MetaStore) (c : JSObj) (ns k : String)
    (v : List JSVal) :
    classMetaLookup (putClassMeta store c ns k v) c ns k = some v := by
  simp [classMetaLookup, putClassMeta, jsGet_jsSet_self]

theorem classMetaLookup_put_frame (store : MetaStore) (c : JSObj) (ns k : String)
    (v : List JSVal) (c' : JSObj) (ns' k' : String)
    (h : ¬(c' = c ∧ ns' = ns ∧ k' = k)) :
    classMetaLookup (putClassMeta store c ns k v) c' ns' k' =
      classMetaLookup store c' ns' k' := by
  by_cases h1 : c' = c
  · subst h1
    by_cases h2 : ns' = ns
    · subst h2
      have h3 : k' ≠ k := fun hk => h ⟨rfl, rfl, hk⟩
      cases hg : jsGet store.classMeta c' with
      | none =>
          simp [classMetaLookup, putClassMeta, hg, jsGet_jsSet_self,
                jsGet_jsSet_ne _ _ _ _ h3, Ne.symm h3, jsGet]
      | some w =>
          cases hg2 : jsGet w ns' with
          | none =>
              simp [classMetaLookup, putClassMeta, hg, hg2, jsGet_jsSet_self,
                    jsGet_jsSet_ne _ _ _ _ h3, Ne.symm h3, jsGet]
          | some u =>
              simp [classMetaLookup, putClassMeta, hg, hg2, jsGet_jsSet_self,
                    jsGet_jsSet_ne _ _ _ _ h3, Ne.symm h3]
    · cases hg : jsGet store.classMeta c' with
      | none =>
          simp [classMetaLookup, putClassMeta, hg, jsGet_jsSet_self,
                jsGet_jsSet_ne _ _ _ _ h2, Ne.symm h2, jsGet]
      | some w =>
          simp [classMetaLookup, putClassMeta, hg, jsGet_jsSet_self,
                jsGet_jsSet_ne _ _ _ _ h2, Ne.symm h2]
  · simp [classMetaLookup, putClassMeta, jsGet_jsSet_ne _ _ _ _ h1]

theorem putClassMeta_methodMeta (store : MetaStore) (c : JSObj) (ns k : String)
    (v : List JSVal) :
    (putClassMeta store c ns k v).methodMeta = store.methodMeta := rfl

theorem methodMetaLookup_put_self (store : MetaStore) (c : JSObj) (m ns k : String)
    (v : List JSVal) :
    methodMetaLookup (putMethodMeta store c m ns k v) c m ns k = some v := by
  simp [methodMetaLookup, putMethodMeta, jsGet_jsSet_self]

theorem methodMetaLookup_put_frame (store : MetaStore) (c : JSObj) (m ns k : String)
    (v : List JSVal) (c' : JSObj) (m' ns' k' : String)
    (h : ¬(c' = c ∧ m' = m ∧ ns' = ns ∧ k' = k)) :
    methodMetaLookup (putMethodMeta store c m ns k v) c' m' ns' k' =
      methodMetaLookup store c' m' ns' k' := by
  by_cases h1 : c' = c
  · subst h1
    by_cases h2 : m' = m
    · subst h2
      by_cases h3 : ns' = ns
      · subst h3
        have h4 : k' ≠ k := fun hk => h ⟨rfl, rfl, rfl, hk⟩
        cases hg : jsGet store.methodMeta c' with
        | none =>
            simp [methodMetaLookup, putMethodMeta, hg, jsGet_jsSet_self,
                  jsGet_jsSet_ne _ _ _ _ h4, Ne.symm h4, jsGet]
        | some w =>
            cases hg2 : jsGet w m' with
            | none =>
                simp [methodMetaLookup, putMethodMeta, hg, hg2, jsGet_jsSet_self,
                      jsGet_jsSet_ne _ _ _ _ h4, Ne.symm h4, jsGet]
            | some u =>
                cases hg3 : jsGet u ns' with
                | none =>
                    simp [methodMetaLookup, putMethodMeta, hg, hg2, hg3,
                          jsGet_jsSet_self, jsGet_jsSet_ne _ _ _ _ h4, Ne.symm h4, jsGet]
                | some x =>
                    simp [methodMetaLookup, putMethodMeta, hg, hg2, hg3,
                          jsGet_jsSet_self, jsGet_jsSet_ne _ _ _ _ h4, Ne.symm h4]
      · cases hg : jsGet store.methodMeta c' with
        | none =>
            simp [methodMetaLookup, putMethodMeta, hg, jsGet_jsSet_self,
                  jsGet_jsSet_ne _ _ _ _ h3, Ne.symm h3, jsGet]
        | some w =>
            cases hg2 : jsGet w m' with
            | none =>
                simp [methodMetaLookup, putMethodMeta, hg, hg2, jsGet_jsSet_self,
                      jsGet_jsSet_ne _ _ _ _ h3, Ne.symm h3, jsGet]
            | some u =>
                simp [methodMetaLookup, putMethodMeta, hg, hg2, jsGet_jsSet_self,
                      jsGet_jsSet_ne _ _ _ _ h3, Ne.symm h3]
    · cases hg : jsGet store.methodMeta c' with
      | none =>
          simp [methodMetaLookup, putMethodMeta, hg, jsGet_jsSet_self,
                jsGet_jsSet_ne _ _ _ _ h2, Ne.symm h2, jsGet]
      | some w =>
          simp [methodMetaLookup, putMethodMeta, hg, jsGet_jsSet_self,
                jsGet_jsSet_ne _ _ _ _ h2, Ne.symm h2]
  · simp [methodMetaLookup, putMethodMeta, jsGet_jsSet_ne _ _ _ _ h1]

theorem putMethodMeta_classMeta (store : MetaStore) (c : JSObj) (m ns k : String)
    (v : List JSVal) :
    (putMethodMeta store c m ns k v).classMeta = store.classMeta := rfl

/- ### Claims -/

/-- C1: starting from a fresh instance and running any finite trace of
registrations, `reflect` on a path that never appears in the trace fails
with `NotFound`, and `reflect` on any registered path returns a stored
record and does not fail. -/
theorem c1_reflect_notFound_iff_unregistered
    (evs : List (Nat × String × JSObj)) (p : String) :
    (p ∉ evs.map (·.2.1) →
      (reflect (runRegs .init evs) p).1 =
        .error (.NotFound ("Class at " ++ p ++ " is not registered with Ravel."))) ∧
    (p ∈ evs.map (·.2.1) → ∃ m, (reflect (runRegs .init evs) p).1 = .ok m) := by
  have h := jsGet_runRegs_mem evs .init p
  simp only [RavelState.init, jsKeys, List.map_nil, List.not_mem_nil, false_or] at h
  constructor
  · intro hnot
    refine reflect_not_mem _ _ ?_
    intro hmem
    exact hnot (h.mp ((jsGet_isSome_iff_mem _ _).mpr hmem))
  · intro hmem
    have hs : (jsGet (runRegs RavelState.init evs).knownClasses p).isSome = true :=
      h.mpr hmem
    cases hg : jsGet (runRegs RavelState.init evs).knownClasses p with
    | none => rw [hg] at hs; simp at hs
    | some m => exact ⟨m, by simp [reflect, hg]⟩

/-- C1 witness at a concrete trace: path b is unregistered, path a is
registered. -/
theorem c1_witness :
    ((reflect (runRegs .init [(0, "a", .cls 0)]) "b").1 =
      .error (.NotFound ("Class at " ++ "b" ++ " is not registered with Ravel."))) ∧
    (∃ m, (reflect (runRegs .init [(0, "a", .cls 0)]) "a").1 = .ok m) :=
  ⟨(c1_reflect_notFound_iff_unregistered [(0, "a", .cls 0)] "b").1 (by decide),
   (c1_reflect_notFound_iff_unregistered [(0, "a", .cls 0)] "a").2 (by decide)⟩

/-- C2: registration is a total function (it cannot fail), and reflecting
the registered path immediately afterwards returns exactly the fresh
record with that path, that class and the registration time, whatever was
stored before, so a prior record at the same path is replaced, not
merged. -/
theorem c2_register_then_reflect (st : RavelState) (now : Nat) (p : String)
    (k : JSObj) :
    (reflect (registerClassFunc st now p k) p).1 = .ok ⟨p, k, now⟩ :=
  reflect_register_self st now p k

/-- C3: when some argument of `before` is not a string, the validation
phase fails with `IllegalValue` at the call site: no configurator is
returned, and since `before` touches no store, no metadata is written. -/
theorem c3_before_nonstring_illegalValue (rest : List JSVal)
    (h : ∃ r ∈ rest, r.isString = false) :
    before rest =
      .error (.IllegalValue "Values supplied to @before decorator must be strings.") := by
  have hall : rest.all (·.isString) = false := by
    obtain ⟨r, hr, hf⟩ := h
    exact List.all_eq_false.mpr ⟨r, hr, by simp [hf]⟩
  simp [before, hall]

/-- C3 witness: `before(42)` fails with `IllegalValue`. -/
theorem c3_witness :
    before [.num 42] =
      .error (.IllegalValue "Values supplied to @before decorator must be strings.") :=
  c3_before_nonstring_illegalValue [.num 42] ⟨.num 42, by decide⟩

/-- C4: the zero-argument call `before()` passes validation and returns
its configurator, and applying that configurator to any method key fails
with `NotFound` carrying a message naming the method; the error return
means no metadata write occurs. -/
theorem c4_before_empty_notFound :
    before [] = .ok (beforeApply []) ∧
    ∀ (t : JSObj) (m : String) (store : MetaStore),
      beforeApply [] t (some m) store =
        .error (.NotFound
          ("Empty @before supplied on method " ++ m ++ " of Resource " ++ t.typeofStr)) :=
  ⟨rfl, fun _ _ _ => rfl⟩

/-- C5: for a non-empty all-string argument list, the configurator
applied with no method key performs exactly one write: the class-level
slot of the prototype of the target under namespace `@before` and key
`middleware` now holds exactly the argument list, method-level metadata
is untouched, and every other class-level slot is unchanged; applied with
a method key it performs exactly the one corresponding method-level
write instead. -/
theorem c5_before_writes (rest : List JSVal) (t : JSObj) (m : String)
    (store : MetaStore) (hne : rest ≠ [])
    (hstr : rest.all (·.isString) = true) :
    (beforeApply rest t none store =
        .ok (putClassMeta store t.prototype "@before" "middleware" rest) ∧
      classMetaLookup (putClassMeta store t.prototype "@before" "middleware" rest)
        t.prototype "@before" "middleware" = some rest ∧
      (putClassMeta store t.prototype "@before" "middleware" rest).methodMeta =
        store.methodMeta ∧
      (∀ (c : JSObj) (ns k : String), ¬(c = t.prototype ∧ ns = "@before" ∧ k = "middleware") →
        classMetaLookup (putClassMeta store t.prototype "@before" "middleware" rest) c ns k =
          classMetaLookup store c ns k)) ∧
    (beforeApply rest t (some m) store =
        .ok (putMethodMeta store t m "@before" "middleware" rest) ∧
      methodMetaLookup (putMethodMeta store t m "@before" "middleware" rest)
        t m "@before" "middleware" = some rest ∧
      (putMethodMeta store t m "@before" "middleware" rest).classMeta =
        store.classMeta ∧
      (∀ (c : JSObj) (mm ns k : String),
        ¬(c = t ∧ mm = m ∧ ns = "@before" ∧ k = "middleware") →
        methodMetaLookup (putMethodMeta store t m "@before" "middleware" rest) c mm ns k =
          methodMetaLookup store c mm ns k)) := by
  have hlen : ¬ rest.length = 0 := by
    cases rest with
    | nil => exact absurd rfl hne
    | cons a l => simp
  refine ⟨⟨?_, classMetaLookup_put_self _ _ _ _ _, rfl, ?_⟩,
          ⟨?_, methodMetaLookup_put_self _ _ _ _ _ _, rfl, ?_⟩⟩
  · simp [beforeApply, hlen]
  · intro c ns k hck
    exact classMetaLookup_put_frame _ _ _ _ _ _ _ _ hck
  · simp [beforeApply, hlen]
  · intro c mm ns k hck
    exact methodMetaLookup_put_frame _ _ _ _ _ _ _ _ _ _ hck

/-- C5 witness at a concrete argument list, target and store. -/
theorem c5_witness :
    (beforeApply [.str "auth"] (.cls 3) none .empty =
        .ok (putClassMeta .empty (JSObj.cls 3).prototype "@before" "middleware" [.str "auth"])) ∧
    (beforeApply [.str "auth"] (.cls 3) (some "get") .empty =
        .ok (putMethodMeta .empty (.cls 3) "get" "@before" "middleware" [.str "auth"])) := by
  have h := c5_before_writes [.str "auth"] (.cls 3) "get" .empty (by decide) (by decide)
  exact ⟨h.1.1, h.2.1⟩

/-- C6 counterexample: in the end-to-end run the class-scope metadata
view has no entry under the key before; its only namespace key is
the string at-sign before, so the view stated by the claim does not
appear. -/
theorem c6_counterexample :
    fooEndToEnd.map (fun v => (jsGet v.classView "before", v.classView)) =
      .ok (none, [("@before", [("middleware", [JSVal.str "auth", JSVal.str "log"])])]) := by
  rfl

/-- C6 amended: same scenario, with the namespace written by the code,
the string at-sign before, in place of before: validation passes for both
decorator calls, the class scope of `reflect` at /foo.js shows the
middleware list auth, log under that namespace, and the effective
middleware list for method get is auth, log, cache, class level first. -/
theorem c6_amended_end_to_end :
    before [JSVal.str "auth", JSVal.str "log"] =
      .ok (beforeApply [.str "auth", .str "log"]) ∧
    before [JSVal.str "cache"] = .ok (beforeApply [.str "cache"]) ∧
    fooEndToEnd.map (fun v => (jsGet v.classView "@before", effectiveMiddleware v "get")) =
      .ok (some [("middleware", [JSVal.str "auth", JSVal.str "log"])],
           [JSVal.str "auth", JSVal.str "log", JSVal.str "cache"]) :=
  ⟨rfl, rfl, rfl⟩

/-- C7: after a fresh instance runs any finite trace of registrations,
the enumeration returned by `knownClasses` contains exactly the
registered paths. -/
theorem c7_knownClasses_exact (evs : List (Nat × String × JSObj)) (p : String) :
    p ∈ (knownClassesFunc (runRegs .init evs)).1 ↔ p ∈ evs.map (·.2.1) := by
  have h := jsGet_runRegs_mem evs .init p
  simp only [RavelState.init, jsKeys, List.map_nil, List.not_mem_nil, false_or] at h
  show p ∈ jsKeys (runRegs RavelState.init evs).knownClasses ↔ _
  rw [← jsGet_isSome_iff_mem]
  exact h

/-- C7 witness: a concrete three-element trace enumerates exactly its
paths. -/
theorem c7_witness :
    ("b" ∈ (knownClassesFunc (runRegs .init
        [(0, "a", .cls 0), (1, "b", .cls 1), (2, "c", .cls 2)])).1) ∧
    ("d" ∉ (knownClassesFunc (runRegs .init
        [(0, "a", .cls 0), (1, "b", .cls 1), (2, "c", .cls 2)])).1) :=
  ⟨(c7_knownClasses_exact [(0, "a", .cls 0), (1, "b", .cls 1), (2, "c", .cls 2)] "b").mpr
      (by decide),
   fun hmem =>
     (by decide :
       ¬ "d" ∈ ([(0, "a", JSObj.cls 0), (1, "b", JSObj.cls 1),
         (2, "c", JSObj.cls 2)] : List (Nat × String × JSObj)).map (·.2.1))
       ((c7_knownClasses_exact [(0, "a", .cls 0), (1, "b", .cls 1), (2, "c", .cls 2)] "d").mp
         hmem)⟩

/-- C8: registering the same path twice replaces the record with the
fresh one, and under the monotonicity of `Date.now` (the first timestamp
is at most the second) the observed `registeredAt` does not decrease
across the two registrations. -/
theorem c8_reregister_fresh_record (st : RavelState) (p : String)
    (k1 k2 : JSObj) (t1 t2 : Nat) (h : t1 ≤ t2) :
    ∃ r1 r2,
      (reflect (registerClassFunc st t1 p k1) p).1 = .ok r1 ∧
      (reflect (registerClassFunc (registerClassFunc st t1 p k1) t2 p k2) p).1 = .ok r2 ∧
      r2 = ⟨p, k2, t2⟩ ∧
      r1.registeredAt ≤ r2.registeredAt :=
  ⟨⟨p, k1, t1⟩, ⟨p, k2, t2⟩, reflect_register_self _ _ _ _,
   reflect_register_self _ _ _ _, rfl, h⟩

/-- C8 witness at a concrete state, path and pair of timestamps. -/
theorem c8_witness :
    ∃ r1 r2,
      (reflect (registerClassFunc .init 1 "a" (.cls 0)) "a").1 = .ok r1 ∧
      (reflect (registerClassFunc (registerClassFunc .init 1 "a" (.cls 0)) 2 "a"
        (.cls 1)) "a").1 = .ok r2 ∧
      r2 = ⟨"a", .cls 1, 2⟩ ∧
      r1.registeredAt ≤ r2.registeredAt :=
  c8_reregister_fresh_record .init "a" (.cls 0) (.cls 1) 1 2 (by decide)

/-- C9: the registry lives on each instance, so registering a path on the
first instance leaves `reflect` and `knownClasses` on the second instance
unchanged, and a path unregistered on the second instance still fails
with `NotFound` there. -/
theorem c9_instance_isolation (w : World) (now : Nat) (p : String) (k : JSObj)
    (q : String) (h : q ∉ jsKeys w.app2.knownClasses) :
    reflect (registerOnApp1 w now p k).app2 q = reflect w.app2 q ∧
    knownClassesFunc (registerOnApp1 w now p k).app2 = knownClassesFunc w.app2 ∧
    (reflect (registerOnApp1 w now p k).app2 q).1 =
      .error (.NotFound ("Class at " ++ q ++ " is not registered with Ravel.")) :=
  ⟨rfl, rfl, reflect_not_mem _ _ h⟩

/-- C9 witness: two fresh instances, a registration on the first, a probe
on the second. -/
theorem c9_witness :
    reflect (registerOnApp1 ⟨.init, .init⟩ 5 "a" (.cls 0)).app2 "b" =
      reflect (⟨.init, .init⟩ : World).app2 "b" ∧
    knownClassesFunc (registerOnApp1 ⟨.init, .init⟩ 5 "a" (.cls 0)).app2 =
      knownClassesFunc (⟨.init, .init⟩ : World).app2 ∧
    (reflect (registerOnApp1 ⟨.init, .init⟩ 5 "a" (.cls 0)).app2 "b").1 =
      .error (.NotFound ("Class at " ++ "b" ++ " is not registered with Ravel.")) :=
  c9_instance_isolation ⟨.init, .init⟩ 5 "a" (.cls 0) "b" (by decide)

/-- C10: `reflect` and `knownClasses` return the state they were given
unchanged, repeating either call gives the same result, and two reflect
calls with no intervening registration return records agreeing on path,
class reference and `registeredAt`. -/
theorem c10_reads_are_pure (st : RavelState) (p : String) :
    (reflect st p).2 = st ∧
    (knownClassesFunc st).2 = st ∧
    (reflect ((reflect st p).2) p).1 = (reflect st p).1 ∧
    (knownClassesFunc ((knownClassesFunc st).2)).1 = (knownClassesFunc st).1 ∧
    (∀ r r', (reflect st p).1 = .ok r →
      (reflect ((reflect st p).2) p).1 = .ok r' →
      r.path = r'.path ∧ r.klass = r'.klass ∧ r.registeredAt = r'.registeredAt) := by
  have h2 : (reflect st p).2 = st := by
    cases hg : jsGet st.knownClasses p <;> simp [reflect, hg]
  refine ⟨h2, rfl, by rw [h2], rfl, ?_⟩
  intro r r' hr hr'
  rw [h2, hr] at hr'
  cases hr'
  exact ⟨rfl, rfl, rfl⟩

/-- C10 witness: the inner implications discharged on a concrete
one-registration state. -/
theorem c10_witness :
    ("x" : String) = "x" ∧ JSObj.cls 2 = JSObj.cls 2 ∧ (7 : Nat) = 7 := by
  have h := (c10_reads_are_pure (registerClassFunc .init 7 "x" (.cls 2)) "x").2.2.2.2
    ⟨"x", .cls 2, 7⟩ ⟨"x", .cls 2, 7⟩ (by rfl) (by rfl)
  exact h

end Ravel
